import Mathlib

/-!
Verification of the castagne-rs migration scripts.

Shallow embedding of `scripts/migrate_godot3_to_4.py` (class `GodotMigrator`:
`migrate_file`, the counter accumulation of `migrate_directory`) and
`scripts/fix_connect_calls.py` (`fix_connect_calls`).

File content is modelled as `List Char` (a Python `str`).  The regular
expressions of the source use only `\w`, `\s`, `\d`, literal text, bounded
character classes and one optional group; each one is deterministic (no
backtracking ambiguity), so every pattern is embedded as an executable
left-to-right scanner that mirrors `re.search` / `re.sub` / `re.findall` /
`re.subn` semantics: try a match at each index, on failure advance one
character, on success emit the replacement and continue after the match
(non-overlapping).  Scanners take a fuel argument instantiated with the
length of the scanned list so that all definitions are structural and
kernel-reducible.  Character classes are modelled over their ASCII meaning
(the tool rewrites GDScript source text).
-/

set_option maxRecDepth 20000

/-- Python `\s` (ASCII range): space, tab, newline, carriage return,
vertical tab, form feed. -/
def isSpc (c : Char) : Bool :=
  c = ' ' || c = '\t' || c = '\n' || c = '\r' || c = '\x0b' || c = '\x0c'

/-- Python `\w` (ASCII range): letters, digits, underscore. -/
def isWrd (c : Char) : Bool :=
  c.isAlphanum || c = '_'

/-- Strip a literal pattern from the front of a list; `some rest` on success.
Models matching a literal regex fragment at the current position. -/
def chomp : List Char → List Char → Option (List Char)
  | [], l => some l
  | _ :: _, [] => none
  | p :: ps, c :: cs => if p = c then chomp ps cs else none

/-- Python `pat in s` substring test. -/
def containsL : List Char → List Char → Bool
  | [], pat => pat.isEmpty
  | c :: cs, pat => (chomp pat (c :: cs)).isSome || containsL cs pat

/-- Python `s.replace(old, new)`: global, left-to-right, non-overlapping
(used with nonempty `old` only, as in the source). -/
def replaceGo (old new : List Char) : Nat → List Char → List Char
  | 0, l => l
  | _ + 1, [] => []
  | f + 1, c :: cs =>
    match chomp old (c :: cs) with
    | some rest => new ++ replaceGo old new f rest
    | none => c :: replaceGo old new f cs

/-- Python `s.replace(old, new)` with fuel instantiated. -/
def replaceAll (s old new : List Char) : List Char :=
  replaceGo old new s.length s

/-- Decimal digits of a natural number (models the `{len(matches)}`
f-string interpolation). -/
def digitsGo : Nat → Nat → List Char → List Char
  | 0, _, acc => acc
  | f + 1, n, acc =>
    if n < 10 then Char.ofNat (48 + n) :: acc
    else digitsGo f (n / 10) (Char.ofNat (48 + n % 10) :: acc)

/-- Decimal rendering of a natural number. -/
def natLit (n : Nat) : List Char := digitsGo (n + 1) n []

/-- Shorthand turning a string literal into the `List Char` model. -/
def cl (s : String) : List Char := s.toList

/-- Word-boundary test of `\b` before a `\w` character: the previous
character (if any) is a non-word character and the current one is a word
character. -/
def bOk : Option Char → Char → Bool
  | none, c => isWrd c
  | some p, c => !isWrd p && isWrd c

/-- Scanner for rule 2, pattern `\b(\w+)\.instance\(` with replacement
`\1.instantiate(`.  Returns the rewritten text and whether any match was
found (`re.search` + `re.sub` share this engine). -/
def instGo : Nat → Option Char → List Char → List Char × Bool
  | 0, _, l => (l, false)
  | _ + 1, _, [] => ([], false)
  | f + 1, pre, c :: cs =>
    if bOk pre c then
      match chomp (cl ".instance(") (List.dropWhile isWrd (c :: cs)) with
      | some r2 =>
        let p := instGo f (some '(') r2
        (List.takeWhile isWrd (c :: cs) ++ cl ".instantiate(" ++ p.1, true)
      | none =>
        let p := instGo f (some c) cs
        (c :: p.1, p.2)
    else
      let p := instGo f (some c) cs
      (c :: p.1, p.2)

/-- Rule 2 scanner at full fuel. -/
def instRunT (l : List Char) : List Char × Bool := instGo l.length none l

/-- Number of characters of a whitespace run up to and including its last
newline (how greedy `\s*\n` consumes a whitespace run). -/
def lastNlCut (ws : List Char) : Nat :=
  ws.length - (List.takeWhile (fun c => c ≠ '\n') ws.reverse).length

/-- Scanner for rule 4, pattern `\s*randomize\(\)\s*\n` replaced by the
empty string.  The leading `\s*` is greedy from the match position; the
trailing `\s*\n` consumes the following whitespace run up to its last
newline and fails when that run has none. -/
def rndGo : Nat → List Char → List Char × Bool
  | 0, l => (l, false)
  | _ + 1, [] => ([], false)
  | f + 1, c :: cs =>
    match chomp (cl "randomize()") (List.dropWhile isSpc (c :: cs)) with
    | some r2 =>
      let ws2 := List.takeWhile isSpc r2
      if ws2.contains '\n' then
        let p := rndGo f (r2.drop (lastNlCut ws2))
        (p.1, true)
      else
        let p := rndGo f cs
        (c :: p.1, p.2)
    | none =>
      let p := rndGo f cs
      (c :: p.1, p.2)

/-- Rule 4 scanner at full fuel. -/
def rndRunT (l : List Char) : List Char × Bool := rndGo l.length l

/-- Single-position match attempt for rule 10's pattern
`export\((\w+)\)\s+var\s+(\w+)`.  Returns the two captures and the rest of
the input after the match. -/
def tryExp (l : List Char) : Option (List Char × List Char × List Char) :=
  match chomp (cl "export(") l with
  | none => none
  | some r1 =>
    let ty := List.takeWhile isWrd r1
    if ty.isEmpty then none else
    match chomp (cl ")") (List.dropWhile isWrd r1) with
    | none => none
    | some r3 =>
      if (List.takeWhile isSpc r3).isEmpty then none else
      match chomp (cl "var") (List.dropWhile isSpc r3) with
      | none => none
      | some r5 =>
        if (List.takeWhile isSpc r5).isEmpty then none else
        let r6 := List.dropWhile isSpc r5
        let nm := List.takeWhile isWrd r6
        if nm.isEmpty then none else some (ty, nm, List.dropWhile isWrd r6)

/-- `re.findall` for rule 10: list of `(Type, name)` capture pairs. -/
def expFindGo : Nat → List Char → List (List Char × List Char)
  | 0, _ => []
  | _ + 1, [] => []
  | f + 1, c :: cs =>
    match tryExp (c :: cs) with
    | some (ty, nm, rest) => (ty, nm) :: expFindGo f rest
    | none => expFindGo f cs

/-- `re.sub` for rule 10 with replacement `@export var \2`; also counts the
replacements it performs. -/
def expSubGo : Nat → List Char → List Char × Nat
  | 0, l => (l, 0)
  | _ + 1, [] => ([], 0)
  | f + 1, c :: cs =>
    match tryExp (c :: cs) with
    | some (_, nm, rest) =>
      let p := expSubGo f rest
      (cl "@export var " ++ nm ++ p.1, p.2 + 1)
    | none =>
      let p := expSubGo f cs
      (c :: p.1, p.2)

/-- Rule 10 `re.findall` at full fuel. -/
def expFindallT (l : List Char) : List (List Char × List Char) :=
  expFindGo l.length l

/-- Rule 10 `re.sub` at full fuel. -/
def expSubT (l : List Char) : List Char × Nat := expSubGo l.length l

/-- `re.search` for rule 11's advisory pattern `export\(\w+,\s*\d+`. -/
def expRangeGo : Nat → List Char → Bool
  | 0, _ => false
  | _ + 1, [] => false
  | f + 1, c :: cs =>
    (match chomp (cl "export(") (c :: cs) with
     | some r1 =>
       (!(List.takeWhile isWrd r1).isEmpty &&
         (match chomp (cl ",") (List.dropWhile isWrd r1) with
          | some r2 =>
            (match List.dropWhile isSpc r2 with
             | d :: _ => d.isDigit
             | [] => false)
          | none => false)) || expRangeGo f cs
     | none => expRangeGo f cs)

/-- Rule 11 search at full fuel. -/
def expRangeFoundT (l : List Char) : Bool := expRangeGo l.length l

/-- Scanner for the node renames of rule set 10 (code comment numbering):
pattern `\b` ++ tgt ++ `\b` replaced by `rpl`, whole-word matches only. -/
def wrdGo (tgt rpl : List Char) : Nat → Option Char → List Char → List Char × Bool
  | 0, _, l => (l, false)
  | _ + 1, _, [] => ([], false)
  | f + 1, pre, c :: cs =>
    if (match pre with | none => true | some p => !isWrd p) then
      match chomp tgt (c :: cs) with
      | some rest =>
        if (match rest with | [] => true | d :: _ => !isWrd d) then
          let p := wrdGo tgt rpl f (some (tgt.getLastD c)) rest
          (rpl ++ p.1, true)
        else
          let p := wrdGo tgt rpl f (some c) cs
          (c :: p.1, p.2)
      | none =>
        let p := wrdGo tgt rpl f (some c) cs
        (c :: p.1, p.2)
    else
      let p := wrdGo tgt rpl f (some c) cs
      (c :: p.1, p.2)

/-- Whole-word rename scanner at full fuel. -/
def wrdRunT (tgt rpl l : List Char) : List Char × Bool :=
  wrdGo tgt rpl l.length none l

/-- `re.search` for the advisory pattern `move_and_slide\([^)]+\)`. -/
def mvsGo : Nat → List Char → Bool
  | 0, _ => false
  | _ + 1, [] => false
  | f + 1, c :: cs =>
    (match chomp (cl "move_and_slide(") (c :: cs) with
     | some r =>
       (!(List.takeWhile (fun x => x ≠ ')') r).isEmpty &&
        (match List.dropWhile (fun x => x ≠ ')') r with
         | d :: _ => d = ')'
         | [] => false)) || mvsGo f cs
     | none => mvsGo f cs)

/-- `move_and_slide` advisory search at full fuel. -/
def mvsFoundT (l : List Char) : Bool := mvsGo l.length l

/-! ### Change Records (the exact strings appended to `local_changes`) -/

/-- Change Record of the File-API advisory (rule 1). -/
def rcFile : List Char := cl "⚠️  MANUAL: File API needs migration to FileAccess"

/-- Change Record of rule 2. -/
def rcInst : List Char := cl "instance() → instantiate()"

/-- Change Record of rule 3. -/
def rcRandR : List Char := cl "rand_range() → randf_range()"

/-- Change Record of rule 4. -/
def rcRnd : List Char := cl "Removed randomize() call (automatic in Godot 4)"

/-- Change Record of rule 5. -/
def rcDeg : List Char := cl "deg2rad() → deg_to_rad()"

/-- Change Record of rule 6. -/
def rcRad : List Char := cl "rad2deg() → rad_to_deg()"

/-- Change Record of the `BUTTON_LEFT` rename. -/
def rcBL : List Char := cl "BUTTON_LEFT → MOUSE_BUTTON_LEFT"

/-- Change Record of the `BUTTON_RIGHT` rename. -/
def rcBR : List Char := cl "BUTTON_RIGHT → MOUSE_BUTTON_RIGHT"

/-- Change Record of the `BUTTON_MIDDLE` rename. -/
def rcBM : List Char := cl "BUTTON_MIDDLE → MOUSE_BUTTON_MIDDLE"

/-- Change Record of rule 10 (typed export), carrying the occurrence count
of the `re.findall` result. -/
def rcExp (n : Nat) : List Char :=
  cl "export(Type) → @export (" ++ natLit n ++ cl " occurrences)"

/-- Change Record of the export-range advisory. -/
def rcRange : List Char := cl "⚠️  MANUAL: export() with range needs @export_range()"

/-- Change Record of the `export(NodePath)` literal rule. -/
def rcNP : List Char := cl "export(NodePath) → @export"

/-- Change Record of the `export(PackedScene)` literal rule. -/
def rcPS : List Char := cl "export(PackedScene) → @export"

/-- Change Record of a node rename. -/
def rcRn (tgt rpl : List Char) : List Char := tgt ++ cl " → " ++ rpl

/-- Change Record of the `move_and_slide` advisory. -/
def rcMvs : List Char :=
  cl "⚠️  MANUAL: move_and_slide() API changed - now uses velocity property"

/-- Change Record of the `_ready` super-call advisory. -/
def rcReady : List Char :=
  cl "⚠️  CONSIDER: Add super._ready() call if extending custom class"

/-- Change Record of the `_process` super-call advisory. -/
def rcProc : List Char :=
  cl "⚠️  CONSIDER: Add super._process() call if extending custom class"

/-- Change Record of the Tween advisory. -/
def rcTween : List Char := cl "⚠️  MANUAL: Tween is no longer a node - use create_tween()"

/-- Change Record of the root-accessor rewrite. -/
def rcRoot : List Char := cl "get_tree().get_root() → get_tree().root"

/-- Change Record of the screen-size rewrite. -/
def rcScr : List Char := cl "OS.get_screen_size() → DisplayServer.screen_get_size()"

/-- Change Record of the yield advisory. -/
def rcYield : List Char := cl "⚠️  MANUAL: yield() → await (syntax change required)"

/-- Change Record of the weakref advisory. -/
def rcWeak : List Char := cl "⚠️  MANUAL: WeakRef.get_ref() → WeakRef.get()"

/-- Change Record of the `var2str` rewrite. -/
def rcV2S : List Char := cl "var2str() → var_to_str()"

/-- Change Record of the `str2var` rewrite. -/
def rcS2V : List Char := cl "str2var() → str_to_var()"

/-- Change Record of the extents advisory. -/
def rcExt : List Char :=
  cl "⚠️  MANUAL: .extents → .size (and multiply by 2 for collision shapes)"

/-! ### The Rewrite Driver (`migrate_file`), as a chain of rule steps over
a state of (current content, accumulated change list). -/

/-- Driver state: current content and the `local_changes` list. -/
abbrev St := List Char × List (List Char)

/-- An advisory rule step: on detection, append one Change Record; the
content is never touched. -/
def advStep (p : List Char → Bool) (msg : List Char) (st : St) : St :=
  if p st.1 then (st.1, st.2 ++ [msg]) else st

/-- A literal-substitution rule step: `if old in content: replace` plus one
Change Record. -/
def repStep (old new msg : List Char) (st : St) : St :=
  if containsL st.1 old then (replaceAll st.1 old new, st.2 ++ [msg]) else st

/-- A node-rename step: the source first tests `old in content` and then
`re.search(\b old \b)` before substituting. -/
def rnStep (tgt rpl : List Char) (st : St) : St :=
  if containsL st.1 tgt then
    (if (wrdRunT tgt rpl st.1).2 then
      ((wrdRunT tgt rpl st.1).1, st.2 ++ [rcRn tgt rpl])
    else st)
  else st

/-- Rule 2 step (`re.search` then `re.sub`). -/
def instStep (st : St) : St :=
  if (instRunT st.1).2 then ((instRunT st.1).1, st.2 ++ [rcInst]) else st

/-- Rule 4 step (`re.search` then `re.sub`). -/
def rndStep (st : St) : St :=
  if (rndRunT st.1).2 then ((rndRunT st.1).1, st.2 ++ [rcRnd]) else st

/-- Rule 10 step: `re.findall`, and on a nonempty match list `re.sub` plus
a counted Change Record. -/
def expStep (st : St) : St :=
  if (expFindallT st.1).isEmpty then st
  else ((expSubT st.1).1, st.2 ++ [rcExp (expFindallT st.1).length])

/-- Detection of the File-API advisory (rule 1). -/
def pFile (c : List Char) : Bool :=
  containsL c (cl "File.new()") || containsL c (cl "var file = File")

/-- Detection of the `_ready` super-call advisory. -/
def pReady (c : List Char) : Bool :=
  containsL c (cl "func _ready(") && !containsL c (cl "super._ready()")

/-- Detection of the `_process` super-call advisory. -/
def pProc (c : List Char) : Bool :=
  containsL c (cl "func _process(") && !containsL c (cl "super._process(")

/-- Detection of the Tween advisory. -/
def pTween (c : List Char) : Bool :=
  containsL c (cl "Tween.new()") || containsL c (cl "$Tween")

/-- Detection of the yield advisory. -/
def pYield (c : List Char) : Bool := containsL c (cl "yield(")

/-- Detection of the weakref advisory. -/
def pWeak (c : List Char) : Bool := containsL c (cl "weakref(")

/-- Detection of the extents advisory. -/
def pExt (c : List Char) : Bool := containsL c (cl ".extents")

/-- The full rule catalog of `migrate_file`, applied in source order to the
driver state. -/
def migSteps (st : St) : St :=
  advStep pFile rcFile st
  |> instStep
  |> repStep (cl "rand_range(") (cl "randf_range(") rcRandR
  |> rndStep
  |> repStep (cl "deg2rad(") (cl "deg_to_rad(") rcDeg
  |> repStep (cl "rad2deg(") (cl "rad_to_deg(") rcRad
  |> repStep (cl "BUTTON_LEFT") (cl "MOUSE_BUTTON_LEFT") rcBL
  |> repStep (cl "BUTTON_RIGHT") (cl "MOUSE_BUTTON_RIGHT") rcBR
  |> repStep (cl "BUTTON_MIDDLE") (cl "MOUSE_BUTTON_MIDDLE") rcBM
  |> expStep
  |> advStep expRangeFoundT rcRange
  |> repStep (cl "export(NodePath)") (cl "@export") rcNP
  |> repStep (cl "export(PackedScene)") (cl "@export") rcPS
  |> rnStep (cl "KinematicBody2D") (cl "CharacterBody2D")
  |> rnStep (cl "KinematicBody") (cl "CharacterBody3D")
  |> rnStep (cl "Spatial") (cl "Node3D")
  |> advStep mvsFoundT rcMvs
  |> advStep pReady rcReady
  |> advStep pProc rcProc
  |> advStep pTween rcTween
  |> repStep (cl "get_tree().get_root()") (cl "get_tree().root") rcRoot
  |> repStep (cl "OS.get_screen_size(") (cl "DisplayServer.screen_get_size(") rcScr
  |> advStep pYield rcYield
  |> advStep pWeak rcWeak
  |> repStep (cl "var2str(") (cl "var_to_str(") rcV2S
  |> repStep (cl "str2var(") (cl "str_to_var(") rcS2V
  |> advStep pExt rcExt

/-- The Rewrite Driver `migrate_file` on already-read content: the File
Result is `(content', local_changes)` where `content'` is `none` when the
final text equals the original. -/
def migrateFile (s : List Char) : Option (List Char) × List (List Char) :=
  let r := migSteps (s, [])
  if r.1 = s then (none, r.2) else (some r.1, r.2)

/-- The content transformation of one driver pass (all rules, threaded in
catalog order), ignoring the change list. -/
def pipe (s : List Char) : List Char := (migSteps (s, [])).1

/-- Contribution of one file's change list to the `total_changes` counter
of `migrate_directory`: one per Change Record that does not start with the
advisory marker. -/
def totalDelta (chs : List (List Char)) : Nat :=
  chs.countP (fun r => !(chomp (cl "⚠️") r).isSome)

/-- Whether `migrate_directory` writes the file back: only when the File
Result's content is present and dry-run mode is off. -/
def shouldWrite (dry : Bool) (res : Option (List Char) × List (List Char)) : Bool :=
  res.1.isSome && !dry

/-- Detection disjunction of every mechanical rule of the catalog, on a
fixed text (the conditions the source tests before rewriting). -/
def mechDetect (c : List Char) : Bool :=
  (instRunT c).2 ||
  (containsL c (cl "rand_range(") ||
  ((rndRunT c).2 ||
  (containsL c (cl "deg2rad(") ||
  (containsL c (cl "rad2deg(") ||
  (containsL c (cl "BUTTON_LEFT") ||
  (containsL c (cl "BUTTON_RIGHT") ||
  (containsL c (cl "BUTTON_MIDDLE") ||
  (!(expFindallT c).isEmpty ||
  (containsL c (cl "export(NodePath)") ||
  (containsL c (cl "export(PackedScene)") ||
  ((containsL c (cl "KinematicBody2D") && (wrdRunT (cl "KinematicBody2D") (cl "CharacterBody2D") c).2) ||
  ((containsL c (cl "KinematicBody") && (wrdRunT (cl "KinematicBody") (cl "CharacterBody3D") c).2) ||
  ((containsL c (cl "Spatial") && (wrdRunT (cl "Spatial") (cl "Node3D") c).2) ||
  (containsL c (cl "get_tree().get_root()") ||
  (containsL c (cl "OS.get_screen_size(") ||
  (containsL c (cl "var2str(") ||
  containsL c (cl "str2var(")))))))))))))))))

/-- Detection disjunction of every advisory rule of the catalog. -/
def advDetect (c : List Char) : Bool :=
  pFile c || (expRangeFoundT c || (mvsFoundT c || (pReady c || (pProc c ||
  (pTween c || (pYield c || (pWeak c || pExt c)))))))

/-- The advisory Change Records a text produces, in catalog order (one per
firing advisory rule). -/
def advisoryRecordsL (c : List Char) : List (List Char) :=
  (if pFile c then [rcFile] else []) ++
  (if expRangeFoundT c then [rcRange] else []) ++
  (if mvsFoundT c then [rcMvs] else []) ++
  (if pReady c then [rcReady] else []) ++
  (if pProc c then [rcProc] else []) ++
  (if pTween c then [rcTween] else []) ++
  (if pYield c then [rcYield] else []) ++
  (if pWeak c then [rcWeak] else []) ++
  (if pExt c then [rcExt] else [])

/-! ### `fix_connect_calls.py` -/

/-- One match of the connect-call pattern
`\.connect\("([^"]+)",\s*(\w+),\s*"([^"]+)"(\s*,\s*\[[^\]]*\])?\)`:
the three mandatory captures, the two inter-argument whitespace runs, and
the optional bracketed-parameter group split as (ws before comma, ws after
comma, bracket interior). -/
structure CMat where
  sig : List Char
  ws1 : List Char
  obj : List Char
  ws2 : List Char
  meth : List Char
  g4 : Option (List Char × List Char × List Char)
deriving Repr, DecidableEq

/-- Attempt of the optional group `(\s*,\s*\[[^\]]*\])?` at the current
position; `some (ws3, ws4, interior, rest)` on success. -/
def tryG4 (l : List Char) : Option (List Char × List Char × List Char × List Char) :=
  let ws3 := List.takeWhile isSpc l
  match chomp (cl ",") (List.dropWhile isSpc l) with
  | none => none
  | some r1 =>
    let ws4 := List.takeWhile isSpc r1
    match chomp (cl "[") (List.dropWhile isSpc r1) with
    | none => none
    | some r2 =>
      let inner := List.takeWhile (fun x => x ≠ ']') r2
      match chomp (cl "]") (List.dropWhile (fun x => x ≠ ']') r2) with
      | none => none
      | some r3 => some (ws3, ws4, inner, r3)

/-- Single-position match attempt of the connect-call pattern.  When the
optional group matches but no `)` follows, the fallback alternative (empty
group) cannot match either, because the group's text starts with
whitespace or a comma, never `)`. -/
def tryConn (l : List Char) : Option (CMat × List Char) :=
  match chomp (cl ".connect(\"") l with
  | none => none
  | some r1 =>
    let sig := List.takeWhile (fun x => x ≠ '"') r1
    if sig.isEmpty then none else
    match chomp (cl "\",") (List.dropWhile (fun x => x ≠ '"') r1) with
    | none => none
    | some r3 =>
      let ws1 := List.takeWhile isSpc r3
      let r4 := List.dropWhile isSpc r3
      let obj := List.takeWhile isWrd r4
      if obj.isEmpty then none else
      match chomp (cl ",") (List.dropWhile isWrd r4) with
      | none => none
      | some r5 =>
        let ws2 := List.takeWhile isSpc r5
        match chomp (cl "\"") (List.dropWhile isSpc r5) with
        | none => none
        | some r7 =>
          let meth := List.takeWhile (fun x => x ≠ '"') r7
          if meth.isEmpty then none else
          match chomp (cl "\"") (List.dropWhile (fun x => x ≠ '"') r7) with
          | none => none
          | some r8 =>
            match tryG4 r8 with
            | some (ws3, ws4, inner, r9) =>
              match chomp (cl ")") r9 with
              | some r10 => some (⟨sig, ws1, obj, ws2, meth, some (ws3, ws4, inner)⟩, r10)
              | none => none
            | none =>
              match chomp (cl ")") r8 with
              | some r10 => some (⟨sig, ws1, obj, ws2, meth, none⟩, r10)
              | none => none

/-- The `replacer` of `fix_connect_calls`: without the optional group the
captures are rebuilt around a `Callable`; with it, `params.strip()[1:]`
contributes the post-comma whitespace and the bracketed list. -/
def replOf (m : CMat) : List Char :=
  match m.g4 with
  | none =>
    cl ".connect(\"" ++ m.sig ++ cl "\", Callable(" ++ m.obj ++ cl ", \"" ++
      m.meth ++ cl "\"))"
  | some (_, ws4, inner) =>
    cl ".connect(\"" ++ m.sig ++ cl "\", Callable(" ++ m.obj ++ cl ", \"" ++
      m.meth ++ cl "\").bind(" ++ ws4 ++ cl "[" ++ inner ++ cl "]"

/-- The text a connect-call match spans in the input. -/
def matchTextOf (m : CMat) : List Char :=
  cl ".connect(\"" ++ m.sig ++ cl "\"," ++ m.ws1 ++ m.obj ++ [','] ++ m.ws2 ++
    ['"'] ++ m.meth ++ ['"'] ++
    (match m.g4 with
     | none => []
     | some (ws3, ws4, inner) => ws3 ++ [','] ++ ws4 ++ ['['] ++ inner ++ [']']) ++
    [')']

/-- `re.subn` scanner for the connect-call pattern: rewritten text and
number of substitutions. -/
def subnGo : Nat → List Char → List Char × Nat
  | 0, l => (l, 0)
  | _ + 1, [] => ([], 0)
  | f + 1, c :: cs =>
    match tryConn (c :: cs) with
    | some (m, rest) =>
      let p := subnGo f rest
      (replOf m ++ p.1, p.2 + 1)
    | none =>
      let p := subnGo f cs
      (c :: p.1, p.2)

/-- `fix_connect_calls(content)`: the rewritten content and the
substitution count of `re.subn`. -/
def fixConnectCalls (l : List Char) : List Char × Nat := subnGo l.length l

/-- An independent `re.findall`-style traversal listing every match of the
connect-call pattern. -/
def connFindGo : Nat → List Char → List CMat
  | 0, _ => []
  | _ + 1, [] => []
  | f + 1, c :: cs =>
    match tryConn (c :: cs) with
    | some (m, rest) => m :: connFindGo f rest
    | none => connFindGo f cs

/-- Connect-call match list at full fuel. -/
def connFindall (l : List Char) : List CMat := connFindGo l.length l

/-! ### Claim theorems -/

/-- C1: the Rewrite Driver is not idempotent.  On input `BUTTON_LEFT` one
pass yields `MOUSE_BUTTON_LEFT`; the mouse-button rename's replacement
text re-contains its own pattern, so a second pass yields
`MOUSE_MOUSE_BUTTON_LEFT`, differing from the single pass. -/
theorem c1_buttonDouble :
    pipe (cl "BUTTON_LEFT") = cl "MOUSE_BUTTON_LEFT" ∧
    pipe (pipe (cl "BUTTON_LEFT")) = cl "MOUSE_MOUSE_BUTTON_LEFT" ∧
    pipe (pipe (cl "BUTTON_LEFT")) ≠ pipe (cl "BUTTON_LEFT") := by
  refine ⟨by decide, by decide, by decide⟩

/-- C2 counterexample: on `export(NodePath) var speed` the
`export(NodePath)` literal rule would fire when run alone on the original
text (its detection substring is present), but in the full catalog run the
typed-export rule rewrites the declaration first, so the literal rule's
Change Record is absent from the File Result. -/
theorem c2_literalStarved :
    containsL (cl "export(NodePath) var speed") (cl "export(NodePath)") = true ∧
    (migrateFile (cl "export(NodePath) var speed")).2 = [rcExp 1] ∧
    rcNP ∉ (migrateFile (cl "export(NodePath) var speed")).2 := by
  refine ⟨by decide, by decide, by decide⟩

/-- C2 amended: the typed-export rule (#10) subsumes `export(NodePath)`
matches that are followed by a `var` declaration: the literal rule
under-fires relative to running it alone, though on such input the final
text coincides with what the literal rule alone would have produced. -/
theorem c2_subsumedSameText :
    (migrateFile (cl "export(NodePath) var speed")).1 = some (cl "@export var speed") ∧
    replaceAll (cl "export(NodePath) var speed") (cl "export(NodePath)") (cl "@export") =
      cl "@export var speed" ∧
    rcNP ∉ (migrateFile (cl "export(NodePath) var speed")).2 := by
  refine ⟨by decide, by decide, by decide⟩

/-- C3 counterexample: a file with two typed-export declarations produces
one counted Change Record (`2 occurrences`), yet the orchestrator's
`total_changes` counter gains only 1 for it, not 2. -/
theorem c3_recordNotOccurrences :
    (expFindallT (cl "export(int) var health\nexport(int) var mana\n")).length = 2 ∧
    (migrateFile (cl "export(int) var health\nexport(int) var mana\n")).2 = [rcExp 2] ∧
    totalDelta (migrateFile (cl "export(int) var health\nexport(int) var mana\n")).2 = 1 ∧
    totalDelta (migrateFile (cl "export(int) var health\nexport(int) var mana\n")).2 ≠ 2 := by
  refine ⟨by decide, by decide, by decide, by decide⟩

/-- C3 amended: every mechanical Change Record adds exactly 1 to the
`total_changes` counter — also rule #10's counted record regardless of its
occurrence count — and advisory records add 0. -/
theorem c3_onePerRecord :
    totalDelta (migrateFile (cl "export(int) var health\nexport(int) var mana\n")).2 = 1 ∧
    (migrateFile (cl "export(int) var health\nexport(int) var mana\n")).1 =
      some (cl "@export var health\n@export var mana\n") ∧
    totalDelta (migrateFile (cl "yield(x)\n")).2 = 0 ∧
    (migrateFile (cl "yield(x)\n")).2.length = 1 ∧
    totalDelta (migrateFile (cl "deg2rad(0.5) rad2deg(x)")).2 = 2 := by
  refine ⟨by decide, by decide, by decide, by decide, by decide⟩

/-- C4: the File Result's content is `none` exactly when the mechanical
pass over the text is the identity, and when present it is the fully
transformed text of the catalog-ordered pass. -/
theorem c4_contentSignal (s : List Char) :
    ((migrateFile s).1 = none ↔ pipe s = s) ∧
    ((migrateFile s).1 ≠ none → (migrateFile s).1 = some (pipe s)) := by
  unfold migrateFile pipe
  by_cases h : (migSteps (s, [])).1 = s <;> simp [h]

/-- C4 witness: on `deg2rad(x)` the content is present and equals the
transformed text. -/
theorem c4_contentSignal_wit :
    (migrateFile (cl "deg2rad(x)")).1 ≠ none ∧
    (migrateFile (cl "deg2rad(x)")).1 = some (pipe (cl "deg2rad(x)")) :=
  ⟨by decide, (c4_contentSignal (cl "deg2rad(x)")).2 (by decide)⟩

/-- C5: the randomize-deletion rule's leading greedy `\s*` also consumes
the newline that terminates the preceding line, so on `a\nrandomize()\nb`
the two surrounding lines are merged into `ab` instead of the
line-preserving `a\nb` the specification describes. -/
theorem c5_lineSplice :
    pipe (cl "a\nrandomize()\nb") = cl "ab" ∧
    (migrateFile (cl "a\nrandomize()\nb")).1 = some (cl "ab") ∧
    cl "ab" ≠ cl "a\nb" := by
  refine ⟨by decide, by decide, by decide⟩

lemma advStep_eq (p : List Char → Bool) (msg c : List Char) (chs : List (List Char)) :
    advStep p msg (c, chs) = (c, chs ++ if p c then [msg] else []) := by
  by_cases h : p c <;> simp [advStep, h]

lemma repStep_off {c old new msg : List Char} {chs : List (List Char)}
    (h : containsL c old = false) : repStep old new msg (c, chs) = (c, chs) := by
  simp [repStep, h]

lemma instStep_off {c : List Char} {chs : List (List Char)}
    (h : (instRunT c).2 = false) : instStep (c, chs) = (c, chs) := by
  simp [instStep, h]

lemma rndStep_off {c : List Char} {chs : List (List Char)}
    (h : (rndRunT c).2 = false) : rndStep (c, chs) = (c, chs) := by
  simp [rndStep, h]

lemma expStep_off {c : List Char} {chs : List (List Char)}
    (h : (expFindallT c).isEmpty = true) : expStep (c, chs) = (c, chs) := by
  simp [expStep, h]

lemma rnStep_off {c tgt rpl : List Char} {chs : List (List Char)}
    (h : (containsL c tgt && (wrdRunT tgt rpl c).2) = false) :
    rnStep tgt rpl (c, chs) = (c, chs) := by
  rcases Bool.and_eq_false_iff.mp h with h1 | h2
  · simp [rnStep, h1]
  · by_cases h1 : containsL c tgt <;> simp [rnStep, h1, h2]

lemma migSteps_noMech {s : List Char} (h : mechDetect s = false) (chs : List (List Char)) :
    migSteps (s, chs) = (s, chs ++ advisoryRecordsL s) := by
  simp only [mechDetect, Bool.or_eq_false_iff] at h
  obtain ⟨h1, h2, h3, h4, h5, h6, h7, h8, h9, h10, h11, h12, h13, h14, h15, h16, h17, h18⟩ := h
  simp only [Bool.not_eq_false'] at h9
  simp only [migSteps]
  rw [advStep_eq pFile rcFile, instStep_off h1, repStep_off h2, rndStep_off h3,
      repStep_off h4, repStep_off h5, repStep_off h6, repStep_off h7, repStep_off h8,
      expStep_off h9, advStep_eq expRangeFoundT rcRange, repStep_off h10, repStep_off h11,
      rnStep_off h12, rnStep_off h13, rnStep_off h14,
      advStep_eq mvsFoundT rcMvs, advStep_eq pReady rcReady, advStep_eq pProc rcProc,
      advStep_eq pTween rcTween,
      repStep_off h15, repStep_off h16,
      advStep_eq pYield rcYield, advStep_eq pWeak rcWeak,
      repStep_off h17, repStep_off h18,
      advStep_eq pExt rcExt]
  simp [advisoryRecordsL, List.append_assoc]

lemma advisoryRecordsL_off {s : List Char} (h : advDetect s = false) :
    advisoryRecordsL s = [] := by
  simp only [advDetect, Bool.or_eq_false_iff] at h
  obtain ⟨h1, h2, h3, h4, h5, h6, h7, h8, h9⟩ := h
  simp [advisoryRecordsL, h1, h2, h3, h4, h5, h6, h7, h8, h9]

lemma migrateFile_noMech {s : List Char} (h : mechDetect s = false) :
    migrateFile s = (none, advisoryRecordsL s) := by
  unfold migrateFile
  rw [migSteps_noMech h]
  simp

/-- C6: when no mechanical rule detects on a text, the File Result's
content is `none`, the change list is exactly one advisory Change Record
per firing advisory rule in catalog order, and the orchestrator performs
no write even in apply mode. -/
theorem c6_advisoryFrame (s : List Char) (dry : Bool) (h : mechDetect s = false) :
    (migrateFile s).1 = none ∧ (migrateFile s).2 = advisoryRecordsL s ∧
    shouldWrite dry (migrateFile s) = false := by
  rw [migrateFile_noMech h]
  exact ⟨rfl, rfl, by simp [shouldWrite]⟩

/-- C6 witness: a text containing only a `yield(...)` call fires only the
yield advisory; content stays absent and no write happens in apply mode. -/
theorem c6_advisoryFrame_wit :
    mechDetect (cl "yield(get_tree())") = false ∧
    ((migrateFile (cl "yield(get_tree())")).1 = none ∧
     (migrateFile (cl "yield(get_tree())")).2 = advisoryRecordsL (cl "yield(get_tree())") ∧
     shouldWrite false (migrateFile (cl "yield(get_tree())")) = false) :=
  ⟨by decide, c6_advisoryFrame (cl "yield(get_tree())") false (by decide)⟩

/-- C9: the Driver is total by construction (every definition here is a
total function on arbitrary text), and on text where no rule at all
detects it returns the quiet File Result `(none, [])`. -/
theorem c9_totalNoMatch (s : List Char)
    (h : mechDetect s = false ∧ advDetect s = false) :
    migrateFile s = (none, []) := by
  rw [migrateFile_noMech h.1, advisoryRecordsL_off h.2]

/-- C9 witness: arbitrary unbalanced text with no recognized pattern is
processed and yields the quiet File Result. -/
theorem c9_totalNoMatch_wit :
    (mechDetect (cl "hello ((( wörld \"") = false ∧ advDetect (cl "hello ((( wörld \"") = false) ∧
    migrateFile (cl "hello ((( wörld \"") = (none, []) :=
  ⟨⟨by decide, by decide⟩, c9_totalNoMatch (cl "hello ((( wörld \"") ⟨by decide, by decide⟩⟩

lemma expCount_aux : ∀ (f : Nat) (l : List Char),
    (expFindGo f l).length = (expSubGo f l).2 := by
  intro f
  induction f with
  | zero => intro l; rfl
  | succ f ih =>
    intro l
    cases l with
    | nil => rfl
    | cons c cs =>
      cases h : tryExp (c :: cs) with
      | none => simp only [expFindGo, expSubGo, h]; exact ih cs
      | some t =>
        obtain ⟨ty, nm, rest⟩ := t
        simp only [expFindGo, expSubGo, h, List.length_cons]
        exact congrArg (· + 1) (ih rest)

/-- C7: the occurrence count rule #10 reports (`re.findall` length) equals
the number of declarations its `re.sub` pass rewrites, for every text; on
a text with two typed-export declarations both are rewritten and the one
Change Record reports count 2. -/
theorem c7_exportCount :
    (∀ l : List Char, (expFindallT l).length = (expSubT l).2) ∧
    (migrateFile (cl "export(int) var health export(int) var mana")).1 =
      some (cl "@export var health @export var mana") ∧
    (migrateFile (cl "export(int) var health export(int) var mana")).2 = [rcExp 2] := by
  refine ⟨fun l => expCount_aux l.length l, by decide, by decide⟩

lemma chomp_sound : ∀ {p l r : List Char}, chomp p l = some r → l = p ++ r := by
  intro p
  induction p with
  | nil => intro l r h; cases h; rfl
  | cons a ps ih =>
    intro l r h
    cases l with
    | nil => exact absurd h (by simp [chomp])
    | cons c cs =>
      by_cases hc : a = c
      · subst hc
        simp only [chomp, if_pos rfl] at h
        simpa using ih h
      · simp [chomp, hc] at h

lemma chomp_app : ∀ (p r : List Char), chomp p (p ++ r) = some r := by
  intro p
  induction p with
  | nil => intro r; rfl
  | cons a ps ih => intro r; simp [chomp, ih]

lemma tw_app {p : Char → Bool} :
    ∀ (xs : List Char) {y : Char} (ys : List Char),
      (∀ a ∈ xs, p a = true) → p y = false →
      List.takeWhile p (xs ++ y :: ys) = xs := by
  intro xs
  induction xs with
  | nil =>
    intro y ys _ hy
    simpa using List.takeWhile_cons_of_neg (l := ys) (by simp [hy])
  | cons a xs ih =>
    intro y ys hall hy
    rw [List.cons_append, List.takeWhile_cons_of_pos (hall a (by simp))]
    rw [ih ys (fun b hb => hall b (by simp [hb])) hy]

lemma dw_app {p : Char → Bool} :
    ∀ (xs : List Char) {y : Char} (ys : List Char),
      (∀ a ∈ xs, p a = true) → p y = false →
      List.dropWhile p (xs ++ y :: ys) = y :: ys := by
  intro xs
  induction xs with
  | nil =>
    intro y ys _ hy
    simpa using List.dropWhile_cons_of_neg (l := ys) (by simp [hy])
  | cons a xs ih =>
    intro y ys hall hy
    rw [List.cons_append, List.dropWhile_cons_of_pos (hall a (by simp))]
    exact ih ys (fun b hb => hall b (by simp [hb])) hy

lemma wrd_spc {c : Char} (h : isWrd c = true) : isSpc c = false := by
  cases hs : isSpc c
  · rfl
  · exfalso
    simp only [isSpc, Bool.or_eq_true, decide_eq_true_eq] at hs
    rcases hs with ((((rfl | rfl) | rfl) | rfl) | rfl) | rfl <;> exact absurd h (by decide)

lemma tryConn_builds (sig obj meth : List Char)
    (hs : sig ≠ []) (hsq : ∀ c ∈ sig, c ≠ '"')
    (ho : obj ≠ []) (how : ∀ c ∈ obj, isWrd c = true)
    (hm : meth ≠ []) (hmq : ∀ c ∈ meth, c ≠ '"') :
    tryConn (cl ".connect(\"" ++ sig ++ cl "\", " ++ obj ++ cl ", \"" ++ meth ++ cl "\")") =
      some (⟨sig, [' '], obj, [' '], meth, none⟩, []) := by
  obtain ⟨a, obj', rfl⟩ := List.exists_cons_of_ne_nil ho
  have how' : ∀ c ∈ a :: obj', isWrd c = true := how
  have ha : isSpc a = false := wrd_spc (how a (by simp))
  have hsE : sig.isEmpty = false := List.isEmpty_eq_false.mpr hs
  have hmE : meth.isEmpty = false := List.isEmpty_eq_false.mpr hm
  have e : cl ".connect(\"" ++ sig ++ cl "\", " ++ (a :: obj') ++ cl ", \"" ++ meth ++ cl "\")" =
      cl ".connect(\"" ++ (sig ++ '"' :: ',' :: ' ' ::
        (a :: (obj' ++ ',' :: ' ' :: '"' :: (meth ++ ['"', ')'])))) := by
    simp only [List.append_assoc, List.cons_append]; rfl
  have c1 : ∀ z : List Char, chomp (cl "\",") ('"' :: ',' :: z) = some z := fun z => rfl
  have c2 : ∀ z : List Char, chomp (cl ",") (',' :: z) = some z := fun z => rfl
  have c3 : ∀ z : List Char, chomp (cl "\"") ('"' :: z) = some z := fun z => rfl
  have c4 : ∀ z : List Char, chomp (cl ")") (')' :: z) = some z := fun z => rfl
  have t1 : List.takeWhile (fun x => decide (x ≠ '"'))
      (sig ++ '"' :: ',' :: ' ' :: (a :: (obj' ++ ',' :: ' ' :: '"' :: (meth ++ ['"', ')'])))) = sig :=
    tw_app sig _ (fun b hb => by simpa using hsq b hb) (by decide)
  have d1 : List.dropWhile (fun x => decide (x ≠ '"'))
      (sig ++ '"' :: ',' :: ' ' :: (a :: (obj' ++ ',' :: ' ' :: '"' :: (meth ++ ['"', ')'])))) =
      '"' :: ',' :: ' ' :: (a :: (obj' ++ ',' :: ' ' :: '"' :: (meth ++ ['"', ')']))) :=
    dw_app sig _ (fun b hb => by simpa using hsq b hb) (by decide)
  have t2 : List.takeWhile isSpc (' ' :: a :: (obj' ++ ',' :: ' ' :: '"' :: (meth ++ ['"', ')']))) = [' '] := by
    rw [List.takeWhile_cons_of_pos (by decide), List.takeWhile_cons_of_neg (by simp [ha])]
  have d2 : List.dropWhile isSpc (' ' :: a :: (obj' ++ ',' :: ' ' :: '"' :: (meth ++ ['"', ')']))) =
      a :: (obj' ++ ',' :: ' ' :: '"' :: (meth ++ ['"', ')'])) := by
    rw [List.dropWhile_cons_of_pos (by decide), List.dropWhile_cons_of_neg (by simp [ha])]
  have t3 : List.takeWhile isWrd (a :: (obj' ++ ',' :: ' ' :: '"' :: (meth ++ ['"', ')']))) = a :: obj' :=
    tw_app (a :: obj') _ how' (by decide)
  have d3 : List.dropWhile isWrd (a :: (obj' ++ ',' :: ' ' :: '"' :: (meth ++ ['"', ')']))) =
      ',' :: ' ' :: '"' :: (meth ++ ['"', ')']) :=
    dw_app (a :: obj') _ how' (by decide)
  have t4 : List.takeWhile isSpc (' ' :: '"' :: (meth ++ ['"', ')'])) = [' '] := by
    rw [List.takeWhile_cons_of_pos (by decide), List.takeWhile_cons_of_neg (by decide)]
  have d4 : List.dropWhile isSpc (' ' :: '"' :: (meth ++ ['"', ')'])) = '"' :: (meth ++ ['"', ')']) := by
    rw [List.dropWhile_cons_of_pos (by decide), List.dropWhile_cons_of_neg (by decide)]
  have t5 : List.takeWhile (fun x => decide (x ≠ '"')) (meth ++ ['"', ')']) = meth :=
    tw_app meth _ (fun b hb => by simpa using hmq b hb) (by decide)
  have d5 : List.dropWhile (fun x => decide (x ≠ '"')) (meth ++ ['"', ')']) = '"' :: [')'] :=
    dw_app meth _ (fun b hb => by simpa using hmq b hb) (by decide)
  have tg : tryG4 [')'] = none := by decide
  rw [e]
  simp only [tryConn, chomp_app, t1, d1, hsE, c1, t2, d2, t3, d3, c2, t4, d4, c3, t5, d5,
    hmE, tg, c4]
  simp

lemma subn_nil : ∀ f, subnGo f [] = ([], 0) := fun f => by cases f <;> rfl

lemma subn_single {l : List Char} {m : CMat} (h : tryConn l = some (m, [])) (hl : l ≠ []) :
    fixConnectCalls l = (replOf m, 1) := by
  obtain ⟨c, cs, rfl⟩ := List.exists_cons_of_ne_nil hl
  simp only [fixConnectCalls, List.length_cons, subnGo, h, subn_nil]
  simp

/-- C8: a connect call with the optional bracketed-parameter capture absent
is rewritten to exactly the `Callable` form, the missing capture
contributing nothing — for every signal name, object name and method name
admissible under the pattern's character classes. -/
theorem c8_connectNoParams (sig obj meth : List Char)
    (hs : sig ≠ []) (hsq : ∀ c ∈ sig, c ≠ '"')
    (ho : obj ≠ []) (how : ∀ c ∈ obj, isWrd c = true)
    (hm : meth ≠ []) (hmq : ∀ c ∈ meth, c ≠ '"') :
    fixConnectCalls (cl ".connect(\"" ++ sig ++ cl "\", " ++ obj ++ cl ", \"" ++ meth ++ cl "\")") =
      (cl ".connect(\"" ++ sig ++ cl "\", Callable(" ++ obj ++ cl ", \"" ++ meth ++ cl "\"))", 1) := by
  have h := tryConn_builds sig obj meth hs hsq ho how hm hmq
  have hl : cl ".connect(\"" ++ sig ++ cl "\", " ++ obj ++ cl ", \"" ++ meth ++ cl "\")" ≠ [] := by
    simp only [List.append_assoc]
    exact List.append_ne_nil_of_left_ne_nil (by decide) _
  rw [subn_single h hl]
  rfl

/-- C8 witness: the general theorem applied to `.connect("hit", self, "on_hit")`. -/
theorem c8_connectNoParams_wit :
    fixConnectCalls (cl ".connect(\"" ++ cl "hit" ++ cl "\", " ++ cl "self" ++ cl ", \"" ++ cl "on_hit" ++ cl "\")") =
      (cl ".connect(\"" ++ cl "hit" ++ cl "\", Callable(" ++ cl "self" ++ cl ", \"" ++ cl "on_hit" ++ cl "\"))", 1) :=
  c8_connectNoParams (cl "hit") (cl "self") (cl "on_hit")
    (by decide) (by decide) (by decide) (by decide) (by decide) (by decide)

lemma wordRunNe : ∀ (obj lit : List Char), (∀ c ∈ obj, isWrd c = true) →
    (∀ c ∈ lit, isWrd c = true) → ∀ (t1 t2 : List Char),
    obj ++ ',' :: t1 ≠ lit ++ '(' :: t2 := by
  intro obj
  induction obj with
  | nil =>
    intro lit _ hlit t1 t2 h
    cases lit with
    | nil => simp only [List.nil_append, List.cons.injEq] at h; exact absurd h.1 (by decide)
    | cons b lb =>
      simp only [List.nil_append, List.cons_append, List.cons.injEq] at h
      have hb : isWrd b = true := hlit b (by simp)
      rw [← h.1] at hb
      exact absurd hb (by decide)
  | cons a obj' ih =>
    intro lit hobj hlit t1 t2 h
    cases lit with
    | nil =>
      simp only [List.cons_append, List.nil_append, List.cons.injEq] at h
      have ha : isWrd a = true := hobj a (by simp)
      rw [h.1] at ha
      exact absurd ha (by decide)
    | cons b lb =>
      simp only [List.cons_append, List.cons.injEq] at h
      exact ih lb (fun c hc => hobj c (by simp [hc])) (fun c hc => hlit c (by simp [hc]))
        t1 t2 h.2

lemma coreNe (ws1 obj t1 t2 : List Char) (hws : ∀ c ∈ ws1, isSpc c = true)
    (hob : obj ≠ []) (how : ∀ c ∈ obj, isWrd c = true) :
    ws1 ++ (obj ++ ',' :: t1) ≠
      ' ' :: ('C' :: 'a' :: 'l' :: 'l' :: 'a' :: 'b' :: 'l' :: 'e' :: '(' :: t2) := by
  cases ws1 with
  | nil =>
    obtain ⟨a, obj', rfl⟩ := List.exists_cons_of_ne_nil hob
    intro h
    simp only [List.nil_append, List.cons_append, List.cons.injEq] at h
    have ha : isWrd a = true := how a (by simp)
    rw [h.1] at ha
    exact absurd ha (by decide)
  | cons w ws' =>
    intro h
    simp only [List.cons_append, List.cons.injEq] at h
    obtain ⟨rfl, h2⟩ := h
    cases ws' with
    | nil =>
      simp only [List.nil_append] at h2
      have : obj ++ ',' :: t1 = cl "Callable" ++ '(' :: t2 := h2
      exact wordRunNe obj (cl "Callable") how (by decide) t1 t2 this
    | cons v ws'' =>
      simp only [List.cons_append, List.cons.injEq] at h2
      have hv : isSpc v = true := hws v (by simp)
      rw [h2.1] at hv
      exact absurd hv (by decide)

lemma tryConn_sound {l : List Char} {m : CMat} {rest : List Char}
    (h : tryConn l = some (m, rest)) :
    (∀ c ∈ m.ws1, isSpc c = true) ∧ m.obj ≠ [] ∧ (∀ c ∈ m.obj, isWrd c = true) ∧
    ∃ T, l = cl ".connect(\"" ++ (m.sig ++ '"' :: ',' :: (m.ws1 ++ (m.obj ++ ',' :: T))) := by
  simp only [tryConn] at h
  split at h
  next => exact absurd h (by simp)
  next r1 h0 =>
  split at h
  next => exact absurd h (by simp)
  next hsNe =>
  split at h
  next => exact absurd h (by simp)
  next r3 h3 =>
  split at h
  next => exact absurd h (by simp)
  next hoNe =>
  split at h
  next => exact absurd h (by simp)
  next r5 h5 =>
  split at h
  next => exact absurd h (by simp)
  next r7 h7 =>
  split at h
  next => exact absurd h (by simp)
  next hmNe =>
  split at h
  next => exact absurd h (by simp)
  next r8 h8 =>
  have base : ∃ T, l =
      cl ".connect(\"" ++ ((List.takeWhile (fun x => decide (x ≠ '"')) r1) ++ '"' :: ',' ::
        ((List.takeWhile isSpc r3) ++ ((List.takeWhile isWrd (List.dropWhile isSpc r3)) ++ ',' :: T))) := by
    refine ⟨r5, ?_⟩
    have e0 : l = cl ".connect(\"" ++ r1 := chomp_sound h0
    have e1 : r1 = List.takeWhile (fun x => decide (x ≠ '"')) r1 ++
        List.dropWhile (fun x => decide (x ≠ '"')) r1 :=
      (List.takeWhile_append_dropWhile _ _).symm
    have e2 : List.dropWhile (fun x => decide (x ≠ '"')) r1 = '"' :: ',' :: r3 := chomp_sound h3
    have e3 : r3 = List.takeWhile isSpc r3 ++ List.dropWhile isSpc r3 :=
      (List.takeWhile_append_dropWhile _ _).symm
    have e4 : List.dropWhile isSpc r3 =
        List.takeWhile isWrd (List.dropWhile isSpc r3) ++
        List.dropWhile isWrd (List.dropWhile isSpc r3) :=
      (List.takeWhile_append_dropWhile _ _).symm
    have e5 : List.dropWhile isWrd (List.dropWhile isSpc r3) = ',' :: r5 := chomp_sound h5
    rw [e0]
    nth_rewrite 1 [e1]
    rw [e2]
    nth_rewrite 1 [e3]
    nth_rewrite 1 [e4]
    rw [e5]
  have hws : ∀ c ∈ List.takeWhile isSpc r3, isSpc c = true := fun c hc => List.mem_takeWhile_imp hc
  have hobw : ∀ c ∈ List.takeWhile isWrd (List.dropWhile isSpc r3), isWrd c = true :=
    fun c hc => List.mem_takeWhile_imp hc
  have hobne : List.takeWhile isWrd (List.dropWhile isSpc r3) ≠ [] := by
    intro hh
    rw [hh] at hoNe
    exact hoNe rfl
  split at h
  next ws3 ws4 inner r9 hg4 =>
    split at h
    next r10 h10 =>
      obtain ⟨hm', -⟩ := Prod.mk.injEq .. ▸ Option.some.inj h
      subst hm'
      exact ⟨hws, hobne, hobw, base⟩
    next => exact absurd h (by simp)
  next hg4 =>
    split at h
    next r10 h10 =>
      obtain ⟨hm', -⟩ := Prod.mk.injEq .. ▸ Option.some.inj h
      subst hm'
      exact ⟨hws, hobne, hobw, base⟩
    next => exact absurd h (by simp)

lemma replOf_shape (m : CMat) : ∃ Q, replOf m =
    cl ".connect(\"" ++ (m.sig ++ '"' :: ',' ::
      (' ' :: ('C' :: 'a' :: 'l' :: 'l' :: 'a' :: 'b' :: 'l' :: 'e' :: '(' :: Q))) := by
  cases m with
  | mk sig ws1 obj ws2 meth g4 =>
    cases g4 with
    | none =>
      refine ⟨obj ++ cl ", \"" ++ meth ++ cl "\"))", ?_⟩
      simp only [replOf, List.append_assoc]
      rfl
    | some t =>
      obtain ⟨ws3, ws4, inner⟩ := t
      refine ⟨obj ++ cl ", \"" ++ meth ++ cl "\").bind(" ++ ws4 ++ cl "[" ++ inner ++ cl "]", ?_⟩
      simp only [replOf, List.append_assoc]
      rfl

lemma subn_count : ∀ (f : Nat) (l : List Char),
    (subnGo f l).2 = (connFindGo f l).length := by
  intro f
  induction f with
  | zero => intro l; rfl
  | succ f ih =>
    intro l
    cases l with
    | nil => rfl
    | cons c cs =>
      cases h : tryConn (c :: cs) with
      | none => simp only [subnGo, connFindGo, h]; exact ih cs
      | some pr =>
        obtain ⟨m, rest⟩ := pr
        simp only [subnGo, connFindGo, h, List.length_cons]
        exact congrArg (· + 1) (ih rest)

lemma subn_iff : ∀ (f : Nat) (l : List Char),
    ((subnGo f l).2 = 0 ↔ (subnGo f l).1 = l) := by
  intro f
  induction f with
  | zero => intro l; simp [subnGo]
  | succ f ih =>
    intro l
    cases l with
    | nil => simp [subnGo]
    | cons c cs =>
      cases h : tryConn (c :: cs) with
      | none =>
        simp only [subnGo, h, List.cons.injEq, true_and]
        exact ih cs
      | some pr =>
        obtain ⟨m, rest⟩ := pr
        simp only [subnGo, h]
        constructor
        · intro h0; exact absurd h0 (by simp)
        · intro h1
          exfalso
          obtain ⟨hws, hob, how, T, hl⟩ := tryConn_sound h
          obtain ⟨Q, hr⟩ := replOf_shape m
          rw [hl, hr] at h1
          simp only [List.append_assoc, List.cons_append] at h1
          have h2 := List.append_cancel_left h1
          have h3 := List.append_cancel_left h2
          simp only [List.cons.injEq, true_and] at h3
          exact coreNe m.ws1 m.obj T _ hws hob how h3.symm

/-- C10: for every input, `fix_connect_calls` returns a count equal to the
number of pattern matches an independent traversal finds (the occurrences
replaced), and the count is zero exactly when the returned content is the
unchanged input — every rewrite inserts a `Callable(` segment the matched
text cannot equal, so no rewrite goes uncounted and no counted firing
leaves the text intact. -/
theorem c10_subnInvariant (l : List Char) :
    ((fixConnectCalls l).2 = 0 ↔ (fixConnectCalls l).1 = l) ∧
    (fixConnectCalls l).2 = (connFindall l).length :=
  ⟨subn_iff l.length l, subn_count l.length l⟩
